import Mathlib

/-!
Verification of the radix-relay signal_bridge core against its
natural-language specification.  The Rust sources under
`src/rust/signal_bridge/src/` are shallowly embedded: SQLite tables become
Lean lists of row structures, `u64` arithmetic becomes `Nat` with explicit
`% 2^64`, and the fallible operations return `Option`.  The Signal Protocol
ratchet itself lives in the external `libsignal_protocol` crate and the
`decrypt_message_with_metadata` entry point is only exercised by the tests
under `src/`; both are modelled from the specification and marked as such
in their doc comments.
-/

namespace RadixRelay

/-! ## Key rotation constants (key_rotation.rs lines 13-16) -/

def MIN_PRE_KEY_COUNT : Nat := 50

def REPLENISH_COUNT : Nat := 100

def ROTATION_INTERVAL_SECS : Nat := 7 * 24 * 60 * 60

def GRACE_PERIOD_SECS : Nat := 7 * 24 * 60 * 60

/-- The modulus of Rust's `u64`. -/
def U64_MOD : Nat := 2 ^ 64

/-- Wrapping `u64` subtraction `a - b`, the release-build semantics of the
unguarded subtractions in key_rotation.rs. -/
def subU64 (a b : Nat) : Nat := (a % U64_MOD + (U64_MOD - b % U64_MOD)) % U64_MOD

/-! ## Signed pre-key store (sqlite_storage.rs, `signed_pre_keys` table)

A row of the `signed_pre_keys` table.  `tsMillis` is the record's
`timestamp().epoch_millis()`; `save_signed_pre_key` stores
`created_at = tsMillis / 1000`.  The serialized blob and signature do not
affect any claim and are carried as an opaque `Nat` payload. -/

structure SignedPreKeyRow where
  id : Nat
  tsMillis : Nat
  keyData : Nat
deriving DecidableEq, Repr

/-- `created_at` column value of a stored signed pre-key
(save_signed_pre_key divides the record timestamp by 1000). -/
def SignedPreKeyRow.createdAt (r : SignedPreKeyRow) : Nat := r.tsMillis / 1000

/-- `SELECT COUNT(*) FROM signed_pre_keys`. -/
def signed_pre_key_count (s : List SignedPreKeyRow) : Nat := s.length

/-- `DELETE FROM signed_pre_keys WHERE id = ?`. -/
def delete_signed_pre_key (i : Nat) (s : List SignedPreKeyRow) : List SignedPreKeyRow :=
  s.filter (fun r => r.id ≠ i)

/-- `SELECT id FROM signed_pre_keys WHERE created_at < ?` where the argument
is `timestamp_millis / 1000` (get_signed_pre_keys_older_than). -/
def get_signed_pre_keys_older_than (timestampMillis : Nat)
    (s : List SignedPreKeyRow) : List Nat :=
  (s.filter (fun r => r.createdAt < timestampMillis / 1000)).map (·.id)

/-- `SELECT MAX(id) FROM signed_pre_keys`. -/
def get_max_signed_pre_key_id (s : List SignedPreKeyRow) : Option Nat :=
  match s.map (·.id) with
  | [] => none
  | x :: xs => some (xs.foldl max x)

/-- `SELECT key_data FROM signed_pre_keys WHERE id = ?`. -/
def get_signed_pre_key (i : Nat) (s : List SignedPreKeyRow) : Option SignedPreKeyRow :=
  s.find? (fun r => r.id = i)

/-- The deletion loop of `cleanup_expired_signed_pre_keys` (key_rotation.rs
lines 83-90): delete each expired id, re-reading the count before each
deletion and skipping the deletion when only one key remains. -/
def cleanup_loop_signed (ids : List Nat) (s : List SignedPreKeyRow) : List SignedPreKeyRow :=
  match ids with
  | [] => s
  | i :: rest =>
    if 1 < signed_pre_key_count s then
      cleanup_loop_signed rest (delete_signed_pre_key i s)
    else
      cleanup_loop_signed rest s

/-- `cleanup_expired_signed_pre_keys` (key_rotation.rs lines 64-93):
`cutoff = now - GRACE_PERIOD_SECS * 1000` (wrapping u64 subtraction),
collect ids older than the cutoff, return unchanged when the count is at
most 1, otherwise run the guarded deletion loop. -/
def cleanup_expired_signed_pre_keys (nowMillis : Nat)
    (s : List SignedPreKeyRow) : List SignedPreKeyRow :=
  let cutoff := subU64 nowMillis (GRACE_PERIOD_SECS * 1000)
  let expired := get_signed_pre_keys_older_than cutoff s
  if signed_pre_key_count s ≤ 1 then s
  else cleanup_loop_signed expired s

/-- `signed_pre_key_needs_rotation` (key_rotation.rs lines 38-62): `true`
when no key exists; otherwise fetch the key with the maximal id, compute
`key_age_secs = (now - key_timestamp) / 1000` with wrapping u64
subtraction, and report `key_age_secs > ROTATION_INTERVAL_SECS`.  Returns
`none` when the max-id key cannot be loaded (storage error). -/
def signed_pre_key_needs_rotation (nowMillis : Nat)
    (s : List SignedPreKeyRow) : Option Bool :=
  match get_max_signed_pre_key_id s with
  | none => some true
  | some i =>
    match get_signed_pre_key i s with
    | none => none
    | some r =>
      let keyAgeSecs := subU64 nowMillis r.tsMillis / 1000
      some (decide (ROTATION_INTERVAL_SECS < keyAgeSecs))

/-! ## Kyber pre-key store (sqlite_storage.rs, `kyber_pre_keys` table)

Structurally identical to the signed pre-key store; the Rust source has a
separate near-identical function for each operation, mirrored here. -/

structure KyberPreKeyRow where
  id : Nat
  tsMillis : Nat
  keyData : Nat
deriving DecidableEq, Repr

def KyberPreKeyRow.createdAt (r : KyberPreKeyRow) : Nat := r.tsMillis / 1000

def kyber_pre_key_count (s : List KyberPreKeyRow) : Nat := s.length

def delete_kyber_pre_key (i : Nat) (s : List KyberPreKeyRow) : List KyberPreKeyRow :=
  s.filter (fun r => r.id ≠ i)

def get_kyber_pre_keys_older_than (timestampMillis : Nat)
    (s : List KyberPreKeyRow) : List Nat :=
  (s.filter (fun r => r.createdAt < timestampMillis / 1000)).map (·.id)

def get_max_kyber_pre_key_id (s : List KyberPreKeyRow) : Option Nat :=
  match s.map (·.id) with
  | [] => none
  | x :: xs => some (xs.foldl max x)

def get_kyber_pre_key (i : Nat) (s : List KyberPreKeyRow) : Option KyberPreKeyRow :=
  s.find? (fun r => r.id = i)

/-- The deletion loop of `cleanup_expired_kyber_pre_keys` (key_rotation.rs
lines 209-216). -/
def cleanup_loop_kyber (ids : List Nat) (s : List KyberPreKeyRow) : List KyberPreKeyRow :=
  match ids with
  | [] => s
  | i :: rest =>
    if 1 < kyber_pre_key_count s then
      cleanup_loop_kyber rest (delete_kyber_pre_key i s)
    else
      cleanup_loop_kyber rest s

/-- `cleanup_expired_kyber_pre_keys` (key_rotation.rs lines 190-219). -/
def cleanup_expired_kyber_pre_keys (nowMillis : Nat)
    (s : List KyberPreKeyRow) : List KyberPreKeyRow :=
  let cutoff := subU64 nowMillis (GRACE_PERIOD_SECS * 1000)
  let expired := get_kyber_pre_keys_older_than cutoff s
  if kyber_pre_key_count s ≤ 1 then s
  else cleanup_loop_kyber expired s

/-- `kyber_pre_key_needs_rotation` (key_rotation.rs lines 164-188). -/
def kyber_pre_key_needs_rotation (nowMillis : Nat)
    (s : List KyberPreKeyRow) : Option Bool :=
  match get_max_kyber_pre_key_id s with
  | none => some true
  | some i =>
    match get_kyber_pre_key i s with
    | none => none
    | some r =>
      let keyAgeSecs := subU64 nowMillis r.tsMillis / 1000
      some (decide (ROTATION_INTERVAL_SECS < keyAgeSecs))

/-! ## One-time pre-key store (sqlite_storage.rs, `pre_keys` table) -/

structure PreKeyRow where
  id : Nat
  keyData : Nat
deriving DecidableEq, Repr

def pre_key_count (s : List PreKeyRow) : Nat := s.length

/-- `DELETE FROM pre_keys WHERE id = ?`. -/
def delete_pre_key (i : Nat) (s : List PreKeyRow) : List PreKeyRow :=
  s.filter (fun r => r.id ≠ i)

/-- `INSERT OR REPLACE INTO pre_keys` keyed by the primary key `id`:
any existing row with the same id is replaced. -/
def save_pre_key (i : Nat) (kd : Nat) (s : List PreKeyRow) : List PreKeyRow :=
  s.filter (fun r => r.id ≠ i) ++ [⟨i, kd⟩]

/-- `SELECT MAX(id) FROM pre_keys`. -/
def get_max_pre_key_id (s : List PreKeyRow) : Option Nat :=
  match s.map (·.id) with
  | [] => none
  | x :: xs => some (xs.foldl max x)

/-- `generate_pre_keys(start_id, count)` (keys.rs lines 26-40): ids
`start_id, start_id+1, …`; the random key pairs are supplied by `rng`. -/
def generate_pre_keys (startId count : Nat) (rng : Nat → Nat) : List (Nat × Nat) :=
  (List.range count).map (fun i => (startId + i, rng i))

/-- The id the next replenishment batch starts from
(`get_max_pre_key_id + 1`, or 1 when the store is empty). -/
def next_pre_key_id (s : List PreKeyRow) : Nat :=
  match get_max_pre_key_id s with
  | some m => m + 1
  | none => 1

/-- `replenish_pre_keys` (key_rotation.rs lines 109-130): generate
`REPLENISH_COUNT` keys starting from `max_id + 1` (1 on an empty store)
and save each one. -/
def replenish_pre_keys (s : List PreKeyRow) (rng : Nat → Nat) : List PreKeyRow :=
  (generate_pre_keys (next_pre_key_id s) REPLENISH_COUNT rng).foldl
    (fun st kv => save_pre_key kv.1 kv.2 st) s

/-- The one-time pre-key portion of `SignalBridge::ensure_keys_exist`
(lib.rs lines 87-97): whenever fewer than 5 pre-keys remain, generate and
save `generate_pre_keys(1, 10)` — the fixed ids 1..=10, regardless of
which ids exist or ever existed. -/
def ensure_keys_exist_pre_keys (s : List PreKeyRow) (rng : Nat → Nat) : List PreKeyRow :=
  if pre_key_count s < 5 then
    (generate_pre_keys 1 10 rng).foldl (fun st kv => save_pre_key kv.1 kv.2 st) s
  else s

/-- `consume_pre_key` (key_rotation.rs lines 95-107): delete the key, then
replenish when the remaining count is below `MIN_PRE_KEY_COUNT`. -/
def consume_pre_key (s : List PreKeyRow) (i : Nat) (rng : Nat → Nat) : List PreKeyRow :=
  let s1 := delete_pre_key i s
  if pre_key_count s1 < MIN_PRE_KEY_COUNT then replenish_pre_keys s1 rng
  else s1

/-! ## SHA-256 (the `sha2` crate's function, FIPS 180-4)

`contact_manager.rs` hashes with `sha2::Sha256`; the function is embedded
here in full on `Nat` words with explicit `% 2^32`. -/

/-- Right rotation of a 32-bit word. -/
def rotr32 (n x : Nat) : Nat := ((x >>> n) ||| (x <<< (32 - n))) % 2 ^ 32

def bigSigma0 (x : Nat) : Nat := rotr32 2 x ^^^ rotr32 13 x ^^^ rotr32 22 x

def bigSigma1 (x : Nat) : Nat := rotr32 6 x ^^^ rotr32 11 x ^^^ rotr32 25 x

def smallSigma0 (x : Nat) : Nat := rotr32 7 x ^^^ rotr32 18 x ^^^ (x >>> 3)

def smallSigma1 (x : Nat) : Nat := rotr32 17 x ^^^ rotr32 19 x ^^^ (x >>> 10)

def shaCh (x y z : Nat) : Nat := (x &&& y) ^^^ ((x ^^^ 0xFFFFFFFF) &&& z)

def shaMaj (x y z : Nat) : Nat := (x &&& y) ^^^ (x &&& z) ^^^ (y &&& z)

/-- The 64 SHA-256 round constants. -/
def shaK : List Nat :=
  [1116352408, 1899447441, 3049323471, 3921009573,
   961987163, 1508970993, 2453635748, 2870763221,
   3624381080, 310598401, 607225278, 1426881987,
   1925078388, 2162078206, 2614888103, 3248222580,
   3835390401, 4022224774, 264347078, 604807628,
   770255983, 1249150122, 1555081692, 1996064986,
   2554220882, 2821834349, 2952996808, 3210313671,
   3336571891, 3584528711, 113926993, 338241895,
   666307205, 773529912, 1294757372, 1396182291,
   1695183700, 1986661051, 2177026350, 2456956037,
   2730485921, 2820302411, 3259730800, 3345764771,
   3516065817, 3600352804, 4094571909, 275423344,
   430227734, 506948616, 659060556, 883997877,
   958139571, 1322822218, 1537002063, 1747873779,
   1955562222, 2024104815, 2227730452, 2361852424,
   2428436474, 2756734187, 3204031479, 3329325298]

/-- The eight working variables of the compression function. -/
structure Hash8 where
  a : Nat
  b : Nat
  c : Nat
  d : Nat
  e : Nat
  f : Nat
  g : Nat
  hh : Nat
deriving DecidableEq, Repr

/-- The SHA-256 initial hash value. -/
def shaInit : Hash8 :=
  ⟨1779033703, 3144134277, 1013904242, 2773480762,
   1359893119, 2600822924, 528734635, 1541459225⟩

/-- Extend a 16-word block by `k` schedule words:
`w[t] = σ1(w[t-2]) + w[t-7] + σ0(w[t-15]) + w[t-16]  (mod 2^32)`. -/
def extendSchedule (ws : List Nat) : Nat → List Nat
  | 0 => ws
  | k + 1 =>
    let prev := extendSchedule ws k
    let n := prev.length
    prev ++ [(smallSigma1 (prev.getD (n - 2) 0) + prev.getD (n - 7) 0 +
              smallSigma0 (prev.getD (n - 15) 0) + prev.getD (n - 16) 0) % 2 ^ 32]

/-- One SHA-256 round with round constant plus schedule word `kw`. -/
def shaRound (st : Hash8) (kw : Nat) : Hash8 :=
  let t1 := (st.hh + bigSigma1 st.e + shaCh st.e st.f st.g + kw) % 2 ^ 32
  let t2 := (bigSigma0 st.a + shaMaj st.a st.b st.c) % 2 ^ 32
  ⟨(t1 + t2) % 2 ^ 32, st.a, st.b, st.c, (st.d + t1) % 2 ^ 32, st.e, st.f, st.g⟩

/-- Compress one 16-word block into the running hash state. -/
def compressBlock (st : Hash8) (block : List Nat) : Hash8 :=
  let w := extendSchedule block 48
  let e := (shaK.zip w).foldl (fun s kw => shaRound s ((kw.1 + kw.2) % 2 ^ 32)) st
  ⟨(st.a + e.a) % 2 ^ 32, (st.b + e.b) % 2 ^ 32, (st.c + e.c) % 2 ^ 32,
   (st.d + e.d) % 2 ^ 32, (st.e + e.e) % 2 ^ 32, (st.f + e.f) % 2 ^ 32,
   (st.g + e.g) % 2 ^ 32, (st.hh + e.hh) % 2 ^ 32⟩

/-- Big-endian 4-byte grouping of a byte list into 32-bit words
(the input length is a multiple of 4 after padding). -/
def bytesToWords : List Nat → List Nat
  | b0 :: b1 :: b2 :: b3 :: rest =>
    (b0 * 2 ^ 24 + b1 * 2 ^ 16 + b2 * 2 ^ 8 + b3) :: bytesToWords rest
  | _ => []

/-- The 8-byte big-endian encoding of the message bit length. -/
def lengthBytes (bitLen : Nat) : List Nat :=
  [bitLen >>> 56 % 256, bitLen >>> 48 % 256, bitLen >>> 40 % 256,
   bitLen >>> 32 % 256, bitLen >>> 24 % 256, bitLen >>> 16 % 256,
   bitLen >>> 8 % 256, bitLen % 256]

/-- SHA-256 padding: append `0x80`, zero bytes to 56 mod 64, then the
64-bit big-endian bit length. -/
def padMessage (msg : List Nat) : List Nat :=
  let padZeros := (119 - msg.length % 64) % 64
  msg ++ [0x80] ++ List.replicate padZeros 0 ++ lengthBytes (8 * msg.length)

/-- Split a word list into 16-word blocks (the padded length is a
multiple of 16 words). -/
def chunkWords : List Nat → List (List Nat)
  | w0 :: w1 :: w2 :: w3 :: w4 :: w5 :: w6 :: w7 ::
    w8 :: w9 :: w10 :: w11 :: w12 :: w13 :: w14 :: w15 :: rest =>
    [w0, w1, w2, w3, w4, w5, w6, w7, w8, w9, w10, w11, w12, w13, w14, w15]
      :: chunkWords rest
  | _ => []

/-- The digest bytes of a final hash state: each word big-endian. -/
def digestBytes (st : Hash8) : List Nat :=
  [st.a >>> 24 % 256, st.a >>> 16 % 256, st.a >>> 8 % 256, st.a % 256,
   st.b >>> 24 % 256, st.b >>> 16 % 256, st.b >>> 8 % 256, st.b % 256,
   st.c >>> 24 % 256, st.c >>> 16 % 256, st.c >>> 8 % 256, st.c % 256,
   st.d >>> 24 % 256, st.d >>> 16 % 256, st.d >>> 8 % 256, st.d % 256,
   st.e >>> 24 % 256, st.e >>> 16 % 256, st.e >>> 8 % 256, st.e % 256,
   st.f >>> 24 % 256, st.f >>> 16 % 256, st.f >>> 8 % 256, st.f % 256,
   st.g >>> 24 % 256, st.g >>> 16 % 256, st.g >>> 8 % 256, st.g % 256,
   st.hh >>> 24 % 256, st.hh >>> 16 % 256, st.hh >>> 8 % 256, st.hh % 256]

/-- SHA-256 of a byte sequence (each input byte `< 256`), as 32 bytes. -/
def sha256 (msg : List Nat) : List Nat :=
  digestBytes ((chunkWords (bytesToWords (padMessage msg))).foldl compressBlock shaInit)

/-! ## RDX fingerprint (contact_manager.rs lines 270-276) -/

/-- A nibble as a lowercase hexadecimal character. -/
def hexDigit (n : Nat) : Char :=
  if n < 10 then Char.ofNat (48 + n) else Char.ofNat (87 + n)

/-- A byte as two lowercase hexadecimal characters. -/
def byteToHex (b : Nat) : List Char := [hexDigit (b / 16), hexDigit (b % 16)]

/-- Lowercase hexadecimal rendering of a byte list, the behaviour of
Rust's `format!("{:x}", digest)`. -/
def hexString (bytes : List Nat) : String := String.mk (bytes.map byteToHex).flatten

/-- The domain-separation suffix `b"radix-identity-fingerprint"`. -/
def fingerprintSuffix : List Nat := "radix-identity-fingerprint".data.map Char.toNat

/-- `ContactManager::generate_identity_fingerprint_from_key`: SHA-256 over
the serialized identity key followed by the suffix, rendered as
`RDX:<lowercase hex>`.  The streaming `hasher.update` calls concatenate. -/
def generate_identity_fingerprint_from_key (identityKeySer : List Nat) : String :=
  "RDX:" ++ hexString (sha256 (identityKeySer ++ fingerprintSuffix))

/-- The fingerprint formula as the specification words it
(spec.md §3, "Fingerprint derivation"), for the refinement comparison. -/
def rdx_fingerprint_spec (identityPublicKeyBytes : List Nat) : String :=
  "RDX:" ++ hexString (sha256 (identityPublicKeyBytes ++ fingerprintSuffix))

/-! ## Nostr identity derivation (nostr_identity.rs) -/

/-- HMAC-SHA256 (RFC 2104) with a 64-byte block. -/
def hmacSha256 (key msg : List Nat) : List Nat :=
  let k0 := if 64 < key.length then sha256 key else key
  let kpad := k0 ++ List.replicate (64 - k0.length) 0
  sha256 ((kpad.map (fun b => b ^^^ 0x5c)) ++
          sha256 ((kpad.map (fun b => b ^^^ 0x36)) ++ msg))

/-- HKDF-SHA256 extract with the default (absent) salt: HMAC keyed by 32
zero bytes, as `Hkdf::<Sha256>::new(None, ikm)` does. -/
def hkdfExtract (ikm : List Nat) : List Nat := hmacSha256 (List.replicate 32 0) ikm

/-- HKDF-SHA256 expand to exactly 32 bytes: the first output block
`T(1) = HMAC(prk, info || 0x01)`. -/
def hkdfExpand32 (prk info : List Nat) : List Nat := hmacSha256 prk (info ++ [1])

/-- The HKDF info string `b"radix_relay_nostr_derivation"`. -/
def nostrDerivationInfo : List Nat := "radix_relay_nostr_derivation".data.map Char.toNat

/-- Modelled from the spec: `deterministic_keypair_from_seed` (spec.md §3,
"Secondary keypair derivation").  The secp256k1 point computation lives in
the external `nostr` crate; what the claims need is that it is one fixed
deterministic function of the 32-byte seed, modelled here by a concrete
digest of the seed. -/
def nostrPublicOfSecret (secret : List Nat) : List Nat := sha256 secret

/-- The identity key pair held in local storage: 33-byte public
serialization and 32-byte private key. -/
structure IdentityKeyPairM where
  publicKey : List Nat
  privateKey : List Nat
deriving DecidableEq, Repr

/-- `identity_key_pair.identity_key().serialize()` is the public half's
byte serialization. -/
def IdentityKeyPairM.identityKeySer (kp : IdentityKeyPairM) : List Nat := kp.publicKey

/-- The derived Nostr key pair (`nostr::Keys`). -/
structure NostrKeysM where
  secretKey : List Nat
  publicKey : List Nat
deriving DecidableEq, Repr

/-- `nostr::Keys::new(secret_key)`: the public key is the deterministic
function of the secret. -/
def nostrKeysNew (secret : List Nat) : NostrKeysM :=
  ⟨secret, nostrPublicOfSecret secret⟩

/-- `NostrIdentity::derive_from_signal_identity` (nostr_identity.rs lines
23-37): HKDF over the identity public key's serialization with the fixed
info string, then build the full key pair. -/
def derive_from_signal_identity (identityKeyPair : IdentityKeyPairM) : NostrKeysM :=
  let derivedKey := hkdfExpand32 (hkdfExtract identityKeyPair.identityKeySer)
    nostrDerivationInfo
  nostrKeysNew derivedKey

/-- `NostrIdentity::derive_public_key_from_peer_identity`
(nostr_identity.rs lines 46-59): the same HKDF derivation from the peer's
identity key serialization alone, returning only the public half. -/
def derive_public_key_from_peer_identity (peerIdentitySer : List Nat) : List Nat :=
  let derivedKey := hkdfExpand32 (hkdfExtract peerIdentitySer) nostrDerivationInfo
  (nostrKeysNew derivedKey).publicKey

/-! ## Contact table (sqlite_storage.rs `contacts` table,
contact_manager.rs `add_contact_from_bundle`) -/

/-- A row of the `contacts` table.  The schema declares `rdx_fingerprint`
as primary key and `nostr_pubkey` as `UNIQUE`; `user_alias` carries no
uniqueness constraint (only a plain partial index). -/
structure ContactRow where
  rdxFingerprint : String
  nostrPubkey : String
  userAlias : Option String
  signalIdentityKey : List Nat
  firstSeen : Nat
  lastUpdated : Nat
deriving DecidableEq, Repr

/-- The deserialized `SerializablePreKeyBundle` (lib.rs lines 37-50). -/
structure SerializablePreKeyBundleM where
  registrationId : Nat
  deviceId : Nat
  preKeyId : Option Nat
  preKeyPublic : Option (List Nat)
  signedPreKeyId : Nat
  signedPreKeyPublic : List Nat
  signedPreKeySignature : List Nat
  identityKey : List Nat
  kyberPreKeyId : Nat
  kyberPreKeyPublic : List Nat
  kyberPreKeySignature : List Nat
deriving DecidableEq, Repr

/-- SQLite `INSERT OR REPLACE` into `contacts`: every row conflicting on
the primary key `rdx_fingerprint` or on the `UNIQUE nostr_pubkey` column
is replaced by the new row. -/
def upsert_contact (c : ContactRow) (t : List ContactRow) : List ContactRow :=
  t.filter (fun r => r.rdxFingerprint ≠ c.rdxFingerprint ∧ r.nostrPubkey ≠ c.nostrPubkey)
    ++ [c]

/-- Modelled from the spec: `IdentityKey::decode` of the external
libsignal crate, invoked at contact_manager.rs lines 96-97.  A serialized
identity public key is 33 bytes (spec.md §3: "33-byte compressed public
on Curve25519"), the DJB key-type byte 5 followed by the 32 key bytes;
any other shape is rejected with a protocol error.  On success,
`identity_key.serialize()` yields the same bytes back. -/
def identity_key_decode (bs : List Nat) : Option (List Nat) :=
  if bs.length = 33 ∧ bs.headD 0 = 5 then some bs else none

/-- `ContactManager::add_contact_from_bundle` (contact_manager.rs lines
84-118) after bundle deserialization: decode the bundle's identity key
(failing with `none` when it is invalid, before any table write), derive
the fingerprint and the Nostr public key from it, then
`INSERT OR REPLACE` with
`first_seen = COALESCE((SELECT first_seen … WHERE rdx_fingerprint = ?), now)`.
Returns the updated table and the fingerprint; no alias check is
performed. -/
def add_contact_from_bundle (bundle : SerializablePreKeyBundleM)
    (userAlias : Option String) (now : Nat) (t : List ContactRow) :
    Option (List ContactRow × String) :=
  match identity_key_decode bundle.identityKey with
  | none => none
  | some identityKey =>
    let rdx := generate_identity_fingerprint_from_key identityKey
    let nostrPubkey := hexString (derive_public_key_from_peer_identity identityKey)
    let firstSeen :=
      match t.find? (fun r => r.rdxFingerprint = rdx) with
      | some r => r.firstSeen
      | none => now
    some (upsert_contact ⟨rdx, nostrPubkey, userAlias, bundle.identityKey, firstSeen, now⟩ t,
      rdx)

/-! ## Session engine (modelled from the spec)

Modelled from the spec: the X3DH handshake and Double Ratchet
encrypt/decrypt of spec.md §4.3 are executed by the external
`libsignal_protocol` crate (`message_encrypt`, `message_decrypt`,
`process_prekey_bundle`); only the bridge glue around them is under
`src/`.  The model uses a commutative discrete-log group on `Nat`
(`g^x mod p`) for the Diffie-Hellman and KEM steps, a deterministic key
schedule, and a per-byte XOR stream cipher for the message key — enough
structure to establish the algebra the spec claims (both sides derive the
same secrets) without assuming the round-trip being proved. -/

/-- The modelled DH group modulus. -/
def dhP : Nat := 2147483647

/-- The modelled DH group generator. -/
def dhG : Nat := 7

/-- Public key of a private scalar. -/
def pubOf (x : Nat) : Nat := dhG ^ x % dhP

/-- Diffie-Hellman shared value from own private `x` and peer public `y`. -/
def dh (x y : Nat) : Nat := y ^ x % dhP

/-- Cantor pairing, the model's injective two-argument mixer. -/
def pairN (a b : Nat) : Nat := (a + b) * (a + b + 1) / 2 + b

/-- Modelled signature: the signing key's public half paired with the
signed data; verification recomputes the pair from the public key. -/
def signWith (priv data : Nat) : Nat := pairN (pubOf priv) data

/-- Modelled signature verification. -/
def verifySig (pub sig data : Nat) : Bool := sig == pairN pub data

/-- KEM encapsulation ciphertext for encapsulator randomness `r`. -/
def kemEncapCt (r : Nat) : Nat := pubOf r

/-- KEM encapsulation shared secret against the receiver's public key. -/
def kemEncapSS (r pubK : Nat) : Nat := dh r pubK

/-- KEM decapsulation with the receiver's private key. -/
def kemDecapSS (d ct : Nat) : Nat := dh d ct

/-- The secret key material of one party: long-term identity, signed
pre-key, Kyber pre-key, one one-time pre-key, and the sender-side
ephemerals used when initiating. -/
structure PartySecrets where
  identityPriv : Nat
  signedPreKeyPriv : Nat
  kyberPriv : Nat
  oneTimePreKeyPriv : Nat
  ephemeralPriv : Nat
  kemEphemeralPriv : Nat
  registrationId : Nat
deriving DecidableEq, Repr

/-- The pre-key bundle a party publishes (spec.md §6.1): public halves of
the stored keys plus signatures by the identity key; the one-time pre-key
is advertised with id 1, matching `generate_pre_key_bundle`. -/
def bundleOf (p : PartySecrets) : SerializablePreKeyBundleM where
  registrationId := p.registrationId
  deviceId := 1
  preKeyId := some 1
  preKeyPublic := some [pubOf p.oneTimePreKeyPriv]
  signedPreKeyId := 1
  signedPreKeyPublic := [pubOf p.signedPreKeyPriv]
  signedPreKeySignature := [signWith p.identityPriv (pubOf p.signedPreKeyPriv)]
  identityKey := [pubOf p.identityPriv]
  kyberPreKeyId := 1
  kyberPreKeyPublic := [pubOf p.kyberPriv]
  kyberPreKeySignature := [signWith p.identityPriv (pubOf p.kyberPriv)]

/-- X3DH sender-side shared secrets (spec.md §4.3): DH(IKa, SPKb),
DH(EKa, IKb), DH(EKa, SPKb), DH(EKa, OPKb) when a one-time pre-key is
present, plus the KEM encapsulation secret. -/
def x3dhSenderSecrets (a : PartySecrets) (ikB spkB : Nat) (opkB : Option Nat)
    (kyberB : Nat) : List Nat :=
  [dh a.identityPriv spkB, dh a.ephemeralPriv ikB, dh a.ephemeralPriv spkB] ++
    (match opkB with
     | some opk => [dh a.ephemeralPriv opk]
     | none => []) ++
    [kemEncapSS a.kemEphemeralPriv kyberB]

/-- X3DH receiver-side shared secrets: the same values computed from the
receiver's private keys and the message's public keys. -/
def x3dhReceiverSecrets (b : PartySecrets) (ikA ephA : Nat) (usedOpk : Option Nat)
    (kemCt : Nat) : List Nat :=
  [dh b.signedPreKeyPriv ikA, dh b.identityPriv ephA, dh b.signedPreKeyPriv ephA] ++
    (match usedOpk with
     | some _ => [dh b.oneTimePreKeyPriv ephA]
     | none => []) ++
    [kemDecapSS b.kyberPriv kemCt]

/-- Root key: the fold of the shared-secret list through the mixer. -/
def rootOf (secrets : List Nat) : Nat := secrets.foldl pairN 0

/-- Message key for counter `n` on a chain key. -/
def msgKeyOf (chainKey n : Nat) : Nat := pairN (pairN chainKey 1) n

/-- Keystream byte `i` for message key `mk`. -/
def keystream (mk i : Nat) : Nat := pairN mk i % 256

/-- Encrypt a byte list against the keystream starting at index `i`. -/
def encBytes (mk i : Nat) : List Nat → List Nat
  | [] => []
  | b :: rest => (b ^^^ keystream mk i) :: encBytes mk (i + 1) rest

/-- Decrypt a byte list against the keystream starting at index `i`
(XOR with the same stream). -/
def decBytes (mk i : Nat) : List Nat → List Nat
  | [] => []
  | b :: rest => (b ^^^ keystream mk i) :: decBytes mk (i + 1) rest

/-- The two tagged ciphertext shapes of spec.md §6.2.  The
`libsignal` wire serialization is opaque to the bridge, which only
distinguishes the leading tag; the model keeps the structured form. -/
inductive WireMessage where
  | prekeyMsg (senderIdentityPub ephPub : Nat) (preKeyId : Option Nat)
      (signedPreKeyId kyberPreKeyId : Nat) (kemCt : Nat) (counter : Nat)
      (body : List Nat) : WireMessage
  | regularMsg (ratchetPub counter : Nat) (body : List Nat) : WireMessage
deriving DecidableEq, Repr

/-- `establish_session` followed by the first `encrypt_message` on the
initiator side: verify both bundle signatures against the bundle identity
key, run sender X3DH, and emit the prekey-tagged wire message carrying the
X3DH publics and the encrypted body.  Fails (`none`) when a signature does
not verify, mirroring `process_prekey_bundle`. -/
def establish_and_encrypt_first (a : PartySecrets) (b : SerializablePreKeyBundleM)
    (plaintext : List Nat) : Option WireMessage :=
  let ik := b.identityKey.getD 0 0
  let spk := b.signedPreKeyPublic.getD 0 0
  let kyb := b.kyberPreKeyPublic.getD 0 0
  if verifySig ik (b.signedPreKeySignature.getD 0 0) spk &&
     verifySig ik (b.kyberPreKeySignature.getD 0 0) kyb then
    let opk := b.preKeyPublic.map (fun l => l.getD 0 0)
    let root := rootOf (x3dhSenderSecrets a ik spk opk kyb)
    let mk := msgKeyOf root 0
    some (.prekeyMsg (pubOf a.identityPriv) (pubOf a.ephemeralPriv) b.preKeyId 1 1
      (kemEncapCt a.kemEphemeralPriv) 0 (encBytes mk 0 plaintext))
  else none

/-- Receiver-side decrypt of a prekey message: complete X3DH with the
local private keys and the message's public values, derive the same chain,
and strip the stream cipher.  Returns the plaintext together with the
consumed one-time pre-key id, the signal `message_decrypt` gives back
through the pre-key store.  A regular message cannot be decrypted without
an existing session and yields `none` here. -/
def decrypt_prekey_message (b : PartySecrets) (w : WireMessage) :
    Option (List Nat × Option Nat) :=
  match w with
  | .prekeyMsg ikA ephA usedPk _spkId _kybId kemCt ctr body =>
    let root := rootOf (x3dhReceiverSecrets b ikA ephA usedPk kemCt)
    let mk := msgKeyOf root ctr
    some (decBytes mk 0 body, usedPk)
  | .regularMsg _ _ _ => none

/-- The bundle-metadata singleton row (sqlite_storage.rs lines 104-113):
the key ids recorded by `record_published_bundle`. -/
structure BundleMetadataM where
  preKeyId : Nat
  signedPreKeyId : Nat
  kyberPreKeyId : Nat
deriving DecidableEq, Repr

/-- The result record of `decrypt_message_with_metadata`. -/
structure DecryptResultM where
  plaintext : List Nat
  shouldRepublishBundle : Bool
deriving DecidableEq, Repr

/-- Modelled from the spec: `decrypt_message_with_metadata`
(spec.md §4.6; exercised by the test in encryption.rs lines 339-378 but
not implemented under `src/`): decrypt, and set `should_republish_bundle`
exactly when a one-time pre-key was consumed and its id matches the
`pre_key_id` recorded in the last published bundle metadata. -/
def decrypt_message_with_metadata (b : PartySecrets)
    (meta : Option BundleMetadataM) (w : WireMessage) : Option DecryptResultM :=
  (decrypt_prekey_message b w).map (fun pr =>
    let flag :=
      match pr.2, meta with
      | some pk, some m => pk == m.preKeyId
      | _, _ => false
    ⟨pr.1, flag⟩)

/-- Demo key material for concrete witnesses. -/
def aliceDemo : PartySecrets := ⟨3, 4, 5, 6, 7, 8, 11⟩

/-- Demo key material for concrete witnesses. -/
def bobDemo : PartySecrets := ⟨10, 9, 12, 13, 14, 15, 22⟩

/-- The demo first wire message from `aliceDemo` to `bobDemo`. -/
def wireDemo : WireMessage :=
  (establish_and_encrypt_first aliceDemo (bundleOf bobDemo) [72, 105]).getD
    (.regularMsg 0 0 [])

/-- A valid 33-byte demo identity key: the DJB type byte 5 followed by 32
zero bytes. -/
def demoIdentityKeyA : List Nat := 5 :: List.replicate 32 0

/-- A second valid 33-byte demo identity key, differing from
`demoIdentityKeyA` in the last byte. -/
def demoIdentityKeyB : List Nat := 5 :: (List.replicate 31 0 ++ [1])

/-- A demo bundle carrying the first valid identity key. -/
def bundleDemoA : SerializablePreKeyBundleM :=
  ⟨1, 1, some 1, some [2], 1, [3], [4], demoIdentityKeyA, 1, [5], [6]⟩

/-- A demo bundle carrying the second valid identity key. -/
def bundleDemoB : SerializablePreKeyBundleM :=
  ⟨2, 1, some 1, some [2], 1, [3], [4], demoIdentityKeyB, 1, [5], [6]⟩

/-! ## Helper lemmas -/

theorem u64_mod_eq : U64_MOD = 18446744073709551616 := by norm_num [U64_MOD]

theorem subU64_eq_sub {a b : Nat} (hba : b ≤ a) (ha : a < U64_MOD) :
    subU64 a b = a - b := by
  unfold subU64
  rw [u64_mod_eq] at *
  omega

theorem subU64_wrap {a b : Nat} (hab : a < b) (hb : b < U64_MOD) :
    subU64 a b = U64_MOD - (b - a) := by
  unfold subU64
  rw [u64_mod_eq] at *
  omega

theorem two_le_length_of_two_mem {α : Type} {s : List α} {x y : α}
    (hx : x ∈ s) (hy : y ∈ s) (hxy : x ≠ y) : 2 ≤ s.length := by
  induction s with
  | nil => cases hx
  | cons a t ih =>
    rcases List.mem_cons.mp hx with rfl | hx'
    · rcases List.mem_cons.mp hy with rfl | hy'
      · exact absurd rfl hxy
      · have := List.length_pos.mpr (List.ne_nil_of_mem hy')
        simp only [List.length_cons]
        omega
    · have := List.length_pos.mpr (List.ne_nil_of_mem hx')
      simp only [List.length_cons]
      omega

theorem foldl_max_init_le (xs : List Nat) (acc : Nat) : acc ≤ xs.foldl max acc := by
  induction xs generalizing acc with
  | nil => exact le_refl _
  | cons x t ih => exact le_trans (le_max_left acc x) (ih (max acc x))

theorem foldl_max_mem_le (xs : List Nat) (acc : Nat) :
    ∀ x ∈ xs, x ≤ xs.foldl max acc := by
  induction xs generalizing acc with
  | nil => intro x hx; cases hx
  | cons y t ih =>
    intro x hx
    rcases List.mem_cons.mp hx with rfl | hx'
    · exact le_trans (le_max_right acc x) (foldl_max_init_le t (max acc x))
    · exact ih (max acc y) x hx'

theorem mem_id_lt_next_pre_key_id {s : List PreKeyRow} {r : PreKeyRow}
    (hr : r ∈ s) : r.id < next_pre_key_id s := by
  have hmem : r.id ∈ s.map PreKeyRow.id := List.mem_map_of_mem _ hr
  unfold next_pre_key_id get_max_pre_key_id
  cases hmap : s.map PreKeyRow.id with
  | nil => rw [hmap] at hmem; cases hmem
  | cons x xs =>
    rw [hmap] at hmem
    rcases List.mem_cons.mp hmem with rfl | h'
    · exact Nat.lt_succ_of_le (foldl_max_init_le xs r.id)
    · exact Nat.lt_succ_of_le (foldl_max_mem_le xs x r.id h')

theorem save_pre_key_fresh {s : List PreKeyRow} {i kd : Nat}
    (h : ∀ r ∈ s, r.id ≠ i) : save_pre_key i kd s = s ++ [⟨i, kd⟩] := by
  unfold save_pre_key
  rw [List.filter_eq_self.mpr]
  intro r hr
  exact decide_eq_true (h r hr)

theorem foldl_save_fresh :
    ∀ (ps : List (Nat × Nat)) (s : List PreKeyRow),
    (∀ p ∈ ps, ∀ r ∈ s, r.id ≠ p.1) → (ps.map Prod.fst).Nodup →
    ps.foldl (fun st kv => save_pre_key kv.1 kv.2 st) s
      = s ++ ps.map (fun p => ⟨p.1, p.2⟩) := by
  intro ps
  induction ps with
  | nil => intro s _ _; simp
  | cons p rest ih =>
    intro s hfresh hnodup
    have hstep : save_pre_key p.1 p.2 s = s ++ [⟨p.1, p.2⟩] :=
      save_pre_key_fresh (hfresh p (List.mem_cons_self p rest))
    have hnotin : p.1 ∉ rest.map Prod.fst := (List.nodup_cons.mp hnodup).1
    have hfresh' : ∀ q ∈ rest, ∀ r ∈ s ++ [(⟨p.1, p.2⟩ : PreKeyRow)], r.id ≠ q.1 := by
      intro q hq r hr
      rcases List.mem_append.mp hr with hr' | hr'
      · exact hfresh q (List.mem_cons_of_mem p hq) r hr'
      · have : r = ⟨p.1, p.2⟩ := List.mem_singleton.mp hr'
        subst this
        intro hcontra
        have hpq : p.1 = q.1 := hcontra
        exact hnotin (by rw [hpq]; exact List.mem_map_of_mem Prod.fst hq)
    have ihres := ih (s ++ [⟨p.1, p.2⟩]) hfresh' (List.nodup_cons.mp hnodup).2
    simp only [List.foldl_cons, hstep, ihres, List.map_cons, List.append_assoc,
      List.singleton_append]

theorem replenish_pre_keys_eq_append (s : List PreKeyRow) (rng : Nat → Nat) :
    replenish_pre_keys s rng
      = s ++ (List.range REPLENISH_COUNT).map
          (fun j => ⟨next_pre_key_id s + j, rng j⟩) := by
  unfold replenish_pre_keys generate_pre_keys
  rw [foldl_save_fresh]
  · simp [List.map_map, Function.comp]
  · intro p hp r hr
    rcases List.mem_map.mp hp with ⟨j, _, rfl⟩
    have := mem_id_lt_next_pre_key_id hr
    simp only []
    omega
  · rw [List.map_map]
    have : (Prod.fst ∘ fun i => (next_pre_key_id s + i, rng i))
        = (fun i => next_pre_key_id s + i) := rfl
    rw [this]
    exact List.Nodup.map (fun a b h => by omega) (List.nodup_range _)

theorem mem_save_of_ne {st : List PreKeyRow} {r : PreKeyRow} {i kd : Nat}
    (hr : r ∈ st) (hne : r.id ≠ i) : r ∈ save_pre_key i kd st := by
  unfold save_pre_key
  exact List.mem_append.mpr (Or.inl (List.mem_filter.mpr ⟨hr, decide_eq_true hne⟩))

theorem foldl_save_mem_preserved :
    ∀ (ps : List (Nat × Nat)) (st : List PreKeyRow) (r : PreKeyRow),
    (∀ p ∈ ps, r.id ≠ p.1) → r ∈ st →
    r ∈ ps.foldl (fun acc kv => save_pre_key kv.1 kv.2 acc) st := by
  intro ps
  induction ps with
  | nil => intro st r _ hr; exact hr
  | cons q rest ih =>
    intro st r hne hr
    exact ih (save_pre_key q.1 q.2 st) r
      (fun p hp => hne p (List.mem_cons_of_mem q hp))
      (mem_save_of_ne hr (hne q (List.mem_cons_self q rest)))

theorem foldl_save_mem :
    ∀ (ps : List (Nat × Nat)) (st : List PreKeyRow),
    (ps.map Prod.fst).Nodup → ∀ p ∈ ps,
    (⟨p.1, p.2⟩ : PreKeyRow) ∈ ps.foldl (fun acc kv => save_pre_key kv.1 kv.2 acc) st := by
  intro ps
  induction ps with
  | nil => intro st _ p hp; cases hp
  | cons q rest ih =>
    intro st hnodup p hp
    have hnotin : q.1 ∉ rest.map Prod.fst := (List.nodup_cons.mp hnodup).1
    rcases List.mem_cons.mp hp with rfl | hp'
    · simp only [List.foldl_cons]
      apply foldl_save_mem_preserved
      · intro p2 hp2 hcontra
        exact hnotin (by rw [show p.1 = p2.1 from hcontra]; exact List.mem_map_of_mem _ hp2)
      · unfold save_pre_key
        exact List.mem_append.mpr (Or.inr (List.mem_singleton.mpr rfl))
    · exact ih (save_pre_key q.1 q.2 st) (List.nodup_cons.mp hnodup).2 p hp'

theorem delete_signed_length {s : List SignedPreKeyRow} {i : Nat}
    (hnodup : (s.map SignedPreKeyRow.id).Nodup) :
    s.length ≤ (delete_signed_pre_key i s).length + 1 := by
  induction s with
  | nil => simp [delete_signed_pre_key]
  | cons r t ih =>
    have hnodup' : (t.map SignedPreKeyRow.id).Nodup := (List.nodup_cons.mp hnodup).2
    have hnotin : r.id ∉ t.map SignedPreKeyRow.id := (List.nodup_cons.mp hnodup).1
    unfold delete_signed_pre_key
    by_cases hri : r.id = i
    · rw [List.filter_cons_of_neg (by simp [hri])]
      have ht : t.filter (fun x => x.id ≠ i) = t := by
        apply List.filter_eq_self.mpr
        intro x hx
        apply decide_eq_true
        intro hxi
        exact hnotin (by rw [hri, ← hxi]; exact List.mem_map_of_mem _ hx)
      rw [ht]
      simp
    · rw [List.filter_cons_of_pos (by simp [hri])]
      have := ih hnodup'
      unfold delete_signed_pre_key at this
      simp only [List.length_cons]
      omega

theorem delete_signed_nodup {s : List SignedPreKeyRow} {i : Nat}
    (hnodup : (s.map SignedPreKeyRow.id).Nodup) :
    ((delete_signed_pre_key i s).map SignedPreKeyRow.id).Nodup :=
  List.Nodup.sublist (List.Sublist.map _ (List.filter_sublist s)) hnodup

theorem cleanup_loop_signed_pos :
    ∀ (ids : List Nat) (s : List SignedPreKeyRow),
    (s.map SignedPreKeyRow.id).Nodup → 1 ≤ s.length →
    1 ≤ (cleanup_loop_signed ids s).length := by
  intro ids
  induction ids with
  | nil => intro s _ h; simpa [cleanup_loop_signed] using h
  | cons i rest ih =>
    intro s hnodup hpos
    unfold cleanup_loop_signed
    by_cases hgt : 1 < signed_pre_key_count s
    · rw [if_pos hgt]
      apply ih _ (delete_signed_nodup hnodup)
      have := delete_signed_length (i := i) hnodup
      unfold signed_pre_key_count at hgt
      omega
    · rw [if_neg hgt]
      exact ih s hnodup hpos

theorem delete_kyber_length {s : List KyberPreKeyRow} {i : Nat}
    (hnodup : (s.map KyberPreKeyRow.id).Nodup) :
    s.length ≤ (delete_kyber_pre_key i s).length + 1 := by
  induction s with
  | nil => simp [delete_kyber_pre_key]
  | cons r t ih =>
    have hnodup' : (t.map KyberPreKeyRow.id).Nodup := (List.nodup_cons.mp hnodup).2
    have hnotin : r.id ∉ t.map KyberPreKeyRow.id := (List.nodup_cons.mp hnodup).1
    unfold delete_kyber_pre_key
    by_cases hri : r.id = i
    · rw [List.filter_cons_of_neg (by simp [hri])]
      have ht : t.filter (fun x => x.id ≠ i) = t := by
        apply List.filter_eq_self.mpr
        intro x hx
        apply decide_eq_true
        intro hxi
        exact hnotin (by rw [hri, ← hxi]; exact List.mem_map_of_mem _ hx)
      rw [ht]
      simp
    · rw [List.filter_cons_of_pos (by simp [hri])]
      have := ih hnodup'
      unfold delete_kyber_pre_key at this
      simp only [List.length_cons]
      omega

theorem delete_kyber_nodup {s : List KyberPreKeyRow} {i : Nat}
    (hnodup : (s.map KyberPreKeyRow.id).Nodup) :
    ((delete_kyber_pre_key i s).map KyberPreKeyRow.id).Nodup :=
  List.Nodup.sublist (List.Sublist.map _ (List.filter_sublist s)) hnodup

theorem cleanup_loop_kyber_pos :
    ∀ (ids : List Nat) (s : List KyberPreKeyRow),
    (s.map KyberPreKeyRow.id).Nodup → 1 ≤ s.length →
    1 ≤ (cleanup_loop_kyber ids s).length := by
  intro ids
  induction ids with
  | nil => intro s _ h; simpa [cleanup_loop_kyber] using h
  | cons i rest ih =>
    intro s hnodup hpos
    unfold cleanup_loop_kyber
    by_cases hgt : 1 < kyber_pre_key_count s
    · rw [if_pos hgt]
      apply ih _ (delete_kyber_nodup hnodup)
      have := delete_kyber_length (i := i) hnodup
      unfold kyber_pre_key_count at hgt
      omega
    · rw [if_neg hgt]
      exact ih s hnodup hpos

theorem cleanup_loop_signed_filter :
    ∀ (ids : List Nat) (s : List SignedPreKeyRow),
    (s.map SignedPreKeyRow.id).Nodup → ids.Nodup →
    (∀ i ∈ ids, ∃ r ∈ s, r.id = i) →
    (∃ r ∈ s, r.id ∉ ids) →
    cleanup_loop_signed ids s = s.filter (fun r => r.id ∉ ids) := by
  intro ids
  induction ids with
  | nil =>
    intro s _ _ _ _
    simp [cleanup_loop_signed]
  | cons i rest ih =>
    intro s hnodup hids h3 h4
    obtain ⟨ri, hri, hrid⟩ := h3 i (List.mem_cons_self i rest)
    obtain ⟨rf, hrf, hrfid⟩ := h4
    have hne : ri ≠ rf := by
      intro hcontra
      subst hcontra
      exact hrfid (by rw [hrid]; exact List.mem_cons_self i rest)
    have hlen : 2 ≤ s.length := two_le_length_of_two_mem hri hrf hne
    unfold cleanup_loop_signed
    rw [if_pos (by unfold signed_pre_key_count; omega)]
    have hnodup' := delete_signed_nodup (i := i) (s := s) hnodup
    have hrest : rest.Nodup := (List.nodup_cons.mp hids).2
    have hinotin : i ∉ rest := (List.nodup_cons.mp hids).1
    have h3' : ∀ j ∈ rest, ∃ r ∈ delete_signed_pre_key i s, r.id = j := by
      intro j hj
      obtain ⟨r, hr, hrj⟩ := h3 j (List.mem_cons_of_mem i hj)
      refine ⟨r, List.mem_filter.mpr ⟨hr, decide_eq_true ?_⟩, hrj⟩
      intro hcontra
      have hji : j = i := by rw [← hrj, hcontra]
      exact hinotin (hji ▸ hj)
    have h4' : ∃ r ∈ delete_signed_pre_key i s, r.id ∉ rest := by
      refine ⟨rf, List.mem_filter.mpr ⟨hrf, decide_eq_true ?_⟩, ?_⟩
      · intro hcontra
        exact hrfid (by rw [hcontra]; exact List.mem_cons_self i rest)
      · intro hcontra
        exact hrfid (List.mem_cons_of_mem i hcontra)
    rw [ih (delete_signed_pre_key i s) hnodup' hrest h3' h4']
    unfold delete_signed_pre_key
    rw [List.filter_filter]
    apply List.filter_congr
    intro r _
    apply Bool.eq_iff_iff.mpr
    simp only [Bool.and_eq_true, decide_eq_true_eq, List.mem_cons, not_or]
    tauto

/-! ## Claim theorems -/

/-- Claim C4: `consume_pre_key(id)` deletes that one-time pre-key, and if
the remaining count is below `MIN_PRE_KEY_COUNT` (50) it generates
`REPLENISH_COUNT` (100) new pre-keys with ids continuing from `max_id+1`;
for every starting store whose count was at least 50 before the call, the
count is at least 50 again on return. -/
theorem consume_pre_key_maintains_minimum (s : List PreKeyRow) (i : Nat)
    (rng : Nat → Nat) (_h : MIN_PRE_KEY_COUNT ≤ pre_key_count s) :
    MIN_PRE_KEY_COUNT ≤ pre_key_count (consume_pre_key s i rng) ∧
    (pre_key_count (delete_pre_key i s) < MIN_PRE_KEY_COUNT →
      consume_pre_key s i rng
        = delete_pre_key i s ++ (List.range REPLENISH_COUNT).map
            (fun j => ⟨next_pre_key_id (delete_pre_key i s) + j, rng j⟩)) := by
  constructor
  · unfold consume_pre_key
    by_cases hlow : pre_key_count (delete_pre_key i s) < MIN_PRE_KEY_COUNT
    · rw [if_pos hlow, replenish_pre_keys_eq_append]
      unfold pre_key_count MIN_PRE_KEY_COUNT REPLENISH_COUNT at *
      simp only [List.length_append, List.length_map, List.length_range]
      omega
    · rw [if_neg hlow]
      omega
  · intro hlow
    unfold consume_pre_key
    rw [if_pos hlow, replenish_pre_keys_eq_append]

set_option maxRecDepth 4000 in
/-- Witness for C4 at a concrete 50-key store: consuming key 1 leaves the
count at or above the minimum. -/
theorem consume_pre_key_maintains_minimum_witness :
    MIN_PRE_KEY_COUNT ≤ pre_key_count ((List.range 50).map
      (fun j => (⟨j + 1, 0⟩ : PreKeyRow))) ∧
    MIN_PRE_KEY_COUNT ≤ pre_key_count
      (consume_pre_key ((List.range 50).map (fun j => ⟨j + 1, 0⟩)) 1 (fun _ => 0)) :=
  ⟨by decide,
   (consume_pre_key_maintains_minimum ((List.range 50).map (fun j => ⟨j + 1, 0⟩)) 1
     (fun _ => 0) (by decide)).1⟩

/-- Claim C5: starting from a store with at least one signed pre-key,
`cleanup_expired_signed_pre_keys` leaves at least one; likewise for
`cleanup_expired_kyber_pre_keys`. -/
theorem cleanup_never_deletes_last_record (nowMillis : Nat)
    (s : List SignedPreKeyRow) (k : List KyberPreKeyRow)
    (hs : (s.map SignedPreKeyRow.id).Nodup) (h1 : 1 ≤ signed_pre_key_count s)
    (hk : (k.map KyberPreKeyRow.id).Nodup) (h2 : 1 ≤ kyber_pre_key_count k) :
    1 ≤ signed_pre_key_count (cleanup_expired_signed_pre_keys nowMillis s) ∧
    1 ≤ kyber_pre_key_count (cleanup_expired_kyber_pre_keys nowMillis k) := by
  constructor
  · unfold cleanup_expired_signed_pre_keys
    by_cases hle : signed_pre_key_count s ≤ 1
    · rw [if_pos hle]; exact h1
    · rw [if_neg hle]
      exact cleanup_loop_signed_pos _ s hs h1
  · unfold cleanup_expired_kyber_pre_keys
    by_cases hle : kyber_pre_key_count k ≤ 1
    · rw [if_pos hle]; exact h2
    · rw [if_neg hle]
      exact cleanup_loop_kyber_pos _ k hk h2

/-- Witness for C5 at a concrete store of two long-expired keys of each
kind: the sweep keeps one of each. -/
theorem cleanup_never_deletes_last_record_witness :
    1 ≤ signed_pre_key_count
      (cleanup_expired_signed_pre_keys 1700000000000 [⟨1, 0, 0⟩, ⟨2, 1000, 0⟩]) ∧
    1 ≤ kyber_pre_key_count
      (cleanup_expired_kyber_pre_keys 1700000000000 [⟨1, 0, 0⟩, ⟨2, 1000, 0⟩]) :=
  cleanup_never_deletes_last_record 1700000000000 [⟨1, 0, 0⟩, ⟨2, 1000, 0⟩]
    [⟨1, 0, 0⟩, ⟨2, 1000, 0⟩] (by decide) (by decide) (by decide) (by decide)

set_option maxRecDepth 10000 in
/-- Counterexample to claim C6: ids are reused after deletion, on both
allocation paths.  First, a store holding only pre-key id 1 is consumed;
the key with id 1 is deleted (the store is momentarily empty) and the
replenishment that follows starts again at `max_id+1 = 1` of the
now-empty store, re-allocating the very id that was just deleted.
Second, after id 1 is deleted from a store that keeps id 50, the bridge's
key bootstrap (count 1 < 5) writes the fixed ids 1..=10, re-allocating
the deleted id 1 as well. -/
theorem consume_pre_key_reuses_deleted_id :
    (delete_pre_key 1 [⟨1, 7⟩] = [] ∧
     (⟨1, 0⟩ : PreKeyRow) ∈ consume_pre_key [⟨1, 7⟩] 1 (fun _ => 0)) ∧
    (delete_pre_key 1 [⟨1, 7⟩, ⟨50, 9⟩] = [⟨50, 9⟩] ∧
     (⟨1, 0⟩ : PreKeyRow) ∈ ensure_keys_exist_pre_keys [⟨50, 9⟩] (fun _ => 0)) := by
  refine ⟨⟨by decide, by decide⟩, by decide, by decide⟩

/-- Amended claim C6: one-time pre-key id allocation is not strictly
monotonic over deletions, on either creation path.  `replenish_pre_keys`
appends exactly the ids `max_surviving_id + 1, …, max_surviving_id +
REPLENISH_COUNT` (starting from 1 on an empty store), each strictly
greater than every surviving id — so an id is reallocated once the key
holding the maximal id is deleted; and the bridge's key bootstrap
(`ensure_keys_exist`) writes the fixed ids 1..=10 whenever fewer than 5
keys remain, regardless of which ids exist or ever existed. -/
theorem pre_key_id_allocation_paths (s : List PreKeyRow) (rng rngB : Nat → Nat) :
    replenish_pre_keys s rng
      = s ++ (List.range REPLENISH_COUNT).map
          (fun j => ⟨next_pre_key_id s + j, rng j⟩) ∧
    (∀ r ∈ s, r.id < next_pre_key_id s) ∧
    (pre_key_count s < 5 →
      ∀ j < 10, (⟨1 + j, rngB j⟩ : PreKeyRow) ∈ ensure_keys_exist_pre_keys s rngB) := by
  refine ⟨replenish_pre_keys_eq_append s rng,
    fun _ hr => mem_id_lt_next_pre_key_id hr, ?_⟩
  intro hcount j hj
  unfold ensure_keys_exist_pre_keys
  rw [if_pos hcount]
  unfold generate_pre_keys
  have hnodup : (((List.range 10).map (fun i => (1 + i, rngB i))).map Prod.fst).Nodup := by
    rw [List.map_map]
    have : (Prod.fst ∘ fun i => (1 + i, rngB i)) = (fun i : Nat => 1 + i) := rfl
    rw [this]
    exact List.Nodup.map (fun a b h => by omega) (List.nodup_range _)
  exact foldl_save_mem _ s hnodup (1 + j, rngB j)
    (List.mem_map.mpr ⟨j, List.mem_range.mpr hj, rfl⟩)

/-- Witness for the amended C6 at a concrete one-key store with id 50:
replenishment continues above 50, while the bootstrap writes id 1. -/
theorem pre_key_id_allocation_paths_witness :
    (replenish_pre_keys [⟨50, 9⟩] (fun _ => 5)
      = [⟨50, 9⟩] ++ (List.range REPLENISH_COUNT).map
          (fun j => ⟨next_pre_key_id [⟨50, 9⟩] + j, 5⟩)) ∧
    (⟨50, 9⟩ : PreKeyRow).id < next_pre_key_id [⟨50, 9⟩] ∧
    (⟨1, 0⟩ : PreKeyRow) ∈ ensure_keys_exist_pre_keys [⟨50, 9⟩] (fun _ => 0) :=
  ⟨(pre_key_id_allocation_paths [⟨50, 9⟩] (fun _ => 5) (fun _ => 0)).1,
   (pre_key_id_allocation_paths [⟨50, 9⟩] (fun _ => 5) (fun _ => 0)).2.1
     ⟨50, 9⟩ (by decide),
   (pre_key_id_allocation_paths [⟨50, 9⟩] (fun _ => 5) (fun _ => 0)).2.2
     (by decide) 0 (by decide)⟩

/-- Claim C10: `signed_pre_key_needs_rotation` and
`kyber_pre_key_needs_rotation` compute the key age by the unguarded u64
subtraction `now - key_timestamp`.  When the newest key's timestamp is at
most `now` the age is the true age; when the timestamp lies in the future
the subtraction wraps, the age becomes enormous, and rotation is
spuriously reported. -/
theorem needs_rotation_unguarded_subtraction (nowMillis : Nat)
    (r : SignedPreKeyRow) (s : List SignedPreKeyRow)
    (rk : KyberPreKeyRow) (k : List KyberPreKeyRow)
    (hmaxS : get_max_signed_pre_key_id s = some r.id)
    (hfindS : get_signed_pre_key r.id s = some r)
    (hmaxK : get_max_kyber_pre_key_id k = some rk.id)
    (hfindK : get_kyber_pre_key rk.id k = some rk)
    (hnow : nowMillis < U64_MOD) (htsS : r.tsMillis < U64_MOD)
    (htsK : rk.tsMillis < U64_MOD) :
    (r.tsMillis ≤ nowMillis →
      signed_pre_key_needs_rotation nowMillis s
        = some (decide (ROTATION_INTERVAL_SECS < (nowMillis - r.tsMillis) / 1000))) ∧
    (nowMillis < r.tsMillis → r.tsMillis - nowMillis ≤ 2 ^ 63 →
      signed_pre_key_needs_rotation nowMillis s = some true) ∧
    (rk.tsMillis ≤ nowMillis →
      kyber_pre_key_needs_rotation nowMillis k
        = some (decide (ROTATION_INTERVAL_SECS < (nowMillis - rk.tsMillis) / 1000))) ∧
    (nowMillis < rk.tsMillis → rk.tsMillis - nowMillis ≤ 2 ^ 63 →
      kyber_pre_key_needs_rotation nowMillis k = some true) := by
  have hage : ∀ ts : Nat, ts < U64_MOD → nowMillis < ts → ts - nowMillis ≤ 2 ^ 63 →
      ROTATION_INTERVAL_SECS < subU64 nowMillis ts / 1000 := by
    intro ts hts hlt hdiff
    rw [subU64_wrap hlt hts]
    have h1 : 2 ^ 63 ≤ U64_MOD - (ts - nowMillis) := by
      rw [u64_mod_eq] at *
      omega
    have h2 : (2 : Nat) ^ 63 / 1000 ≤ (U64_MOD - (ts - nowMillis)) / 1000 :=
      Nat.div_le_div_right h1
    have h3 : ROTATION_INTERVAL_SECS < (2 : Nat) ^ 63 / 1000 := by decide
    omega
  refine ⟨?_, ?_, ?_, ?_⟩
  · intro hle
    unfold signed_pre_key_needs_rotation
    simp only [hmaxS, hfindS]
    rw [subU64_eq_sub hle hnow]
  · intro hlt hdiff
    unfold signed_pre_key_needs_rotation
    simp only [hmaxS, hfindS, Option.some.injEq, decide_eq_true_eq]
    exact hage r.tsMillis htsS hlt hdiff
  · intro hle
    unfold kyber_pre_key_needs_rotation
    simp only [hmaxK, hfindK]
    rw [subU64_eq_sub hle hnow]
  · intro hlt hdiff
    unfold kyber_pre_key_needs_rotation
    simp only [hmaxK, hfindK, Option.some.injEq, decide_eq_true_eq]
    exact hage rk.tsMillis htsK hlt hdiff

/-- Witness for C10 at a concrete store whose newest key is stamped one
second in the future: rotation is spuriously reported. -/
theorem needs_rotation_unguarded_subtraction_witness :
    signed_pre_key_needs_rotation 1000 [⟨1, 5000, 0⟩] = some true ∧
    kyber_pre_key_needs_rotation 1000 [⟨1, 5000, 0⟩] = some true :=
  ⟨(needs_rotation_unguarded_subtraction 1000 ⟨1, 5000, 0⟩ [⟨1, 5000, 0⟩]
      ⟨1, 5000, 0⟩ [⟨1, 5000, 0⟩] (by decide) (by decide) (by decide) (by decide)
      (by decide) (by decide) (by decide)).2.1 (by decide) (by decide),
   (needs_rotation_unguarded_subtraction 1000 ⟨1, 5000, 0⟩ [⟨1, 5000, 0⟩]
      ⟨1, 5000, 0⟩ [⟨1, 5000, 0⟩] (by decide) (by decide) (by decide) (by decide)
      (by decide) (by decide) (by decide)).2.2.2 (by decide) (by decide)⟩

set_option maxRecDepth 10000 in
/-- Counterexample to claim C3: `cleanup_expired_signed_pre_keys` uses the
cutoff `now - GRACE_PERIOD` (7 days), not `ROTATION_INTERVAL + GRACE_PERIOD`
(14 days).  A key whose age is 8 days — younger than 14 days, so by the
claim it must survive — is deleted. -/
theorem cleanup_deletes_key_younger_than_fourteen_days :
    cleanup_expired_signed_pre_keys 1700000000000
      [⟨1, 1699308800000, 0⟩, ⟨2, 1700000000000, 0⟩] = [⟨2, 1700000000000, 0⟩] ∧
    1700000000000 / 1000 - (⟨1, 1699308800000, 0⟩ : SignedPreKeyRow).createdAt
      < ROTATION_INTERVAL_SECS + GRACE_PERIOD_SECS := by
  constructor
  · decide
  · decide

/-- Amended claim C3: `cleanup_expired_signed_pre_keys` deletes exactly the
signed pre-keys older than `GRACE_PERIOD` (7 days, not 14) at the time of
the call, and no younger ones; here stated for stores that still hold at
least one key inside the grace period, where the never-delete-the-last rule
does not interfere. -/
theorem cleanup_expired_signed_pre_keys_grace_cutoff
    (nowMillis : Nat) (s : List SignedPreKeyRow)
    (hnodup : (s.map SignedPreKeyRow.id).Nodup)
    (hnow : GRACE_PERIOD_SECS * 1000 ≤ nowMillis) (hlt : nowMillis < U64_MOD)
    (hfresh : ∃ r ∈ s,
      ¬ r.createdAt < (nowMillis - GRACE_PERIOD_SECS * 1000) / 1000) :
    cleanup_expired_signed_pre_keys nowMillis s
      = s.filter (fun r =>
          ¬ r.createdAt < (nowMillis - GRACE_PERIOD_SECS * 1000) / 1000) := by
  have hcut : subU64 nowMillis (GRACE_PERIOD_SECS * 1000)
      = nowMillis - GRACE_PERIOD_SECS * 1000 := subU64_eq_sub hnow hlt
  obtain ⟨rf, hrf, hfr⟩ := hfresh
  simp only [cleanup_expired_signed_pre_keys, hcut]
  by_cases hle : signed_pre_key_count s ≤ 1
  · rw [if_pos hle]
    cases s with
    | nil => cases hrf
    | cons a t =>
      have ht : t = [] := by
        unfold signed_pre_key_count at hle
        simp only [List.length_cons] at hle
        exact List.eq_nil_of_length_eq_zero (by omega)
      subst ht
      have hra : rf = a := by simpa using hrf
      subst hra
      rw [List.filter_eq_self.mpr]
      intro x hx
      have hxr : x = rf := by simpa using hx
      subst hxr
      exact decide_eq_true hfr
  · rw [if_neg hle]
    have hsubl : ((s.filter (fun r =>
        r.createdAt < (nowMillis - GRACE_PERIOD_SECS * 1000) / 1000)).map
          SignedPreKeyRow.id).Sublist (s.map SignedPreKeyRow.id) :=
      List.Sublist.map _ (List.filter_sublist s)
    have hids_nodup : (get_signed_pre_keys_older_than
        (nowMillis - GRACE_PERIOD_SECS * 1000) s).Nodup := by
      unfold get_signed_pre_keys_older_than
      exact List.Nodup.sublist hsubl hnodup
    have h3 : ∀ i ∈ get_signed_pre_keys_older_than
        (nowMillis - GRACE_PERIOD_SECS * 1000) s, ∃ r ∈ s, r.id = i := by
      intro i hi
      unfold get_signed_pre_keys_older_than at hi
      obtain ⟨r, hr, hrid⟩ := List.mem_map.mp hi
      exact ⟨r, (List.mem_filter.mp hr).1, hrid⟩
    have h4 : ∃ r ∈ s, r.id ∉ get_signed_pre_keys_older_than
        (nowMillis - GRACE_PERIOD_SECS * 1000) s := by
      refine ⟨rf, hrf, ?_⟩
      intro hcontra
      unfold get_signed_pre_keys_older_than at hcontra
      obtain ⟨r2, hr2, hr2id⟩ := List.mem_map.mp hcontra
      have hr2s : r2 ∈ s := (List.mem_filter.mp hr2).1
      have hr2exp := of_decide_eq_true (List.mem_filter.mp hr2).2
      have heq : r2 = rf := List.inj_on_of_nodup_map hnodup hr2s hrf hr2id
      subst heq
      exact hfr hr2exp
    rw [cleanup_loop_signed_filter _ s hnodup hids_nodup h3 h4]
    apply List.filter_congr
    intro r hr
    apply Bool.eq_iff_iff.mpr
    simp only [decide_eq_true_eq]
    constructor
    · intro hnotin hexp
      apply hnotin
      unfold get_signed_pre_keys_older_than
      exact List.mem_map.mpr ⟨r, List.mem_filter.mpr ⟨hr, decide_eq_true hexp⟩, rfl⟩
    · intro hnexp hcontra
      unfold get_signed_pre_keys_older_than at hcontra
      obtain ⟨r2, hr2, hr2id⟩ := List.mem_map.mp hcontra
      have hr2s : r2 ∈ s := (List.mem_filter.mp hr2).1
      have hr2exp := of_decide_eq_true (List.mem_filter.mp hr2).2
      have heq : r2 = r := List.inj_on_of_nodup_map hnodup hr2s hr hr2id
      subst heq
      exact hnexp hr2exp

set_option maxRecDepth 10000 in
/-- Witness for the amended C3 at the counterexample store: the 8-day-old
key is deleted, the fresh key survives. -/
theorem cleanup_grace_cutoff_witness :
    cleanup_expired_signed_pre_keys 1700000000000
      [⟨1, 1699308800000, 0⟩, ⟨2, 1700000000000, 0⟩]
      = [⟨1, 1699308800000, 0⟩, ⟨2, 1700000000000, 0⟩].filter
          (fun r => ¬ r.createdAt
            < (1700000000000 - GRACE_PERIOD_SECS * 1000) / 1000) :=
  cleanup_expired_signed_pre_keys_grace_cutoff 1700000000000
    [⟨1, 1699308800000, 0⟩, ⟨2, 1700000000000, 0⟩] (by decide) (by decide)
    (by decide) ⟨⟨2, 1700000000000, 0⟩, by decide, by decide⟩

/-- The SHA-256 digest is always exactly 32 bytes. -/
theorem sha256_length (msg : List Nat) : (sha256 msg).length = 32 := rfl

theorem digestBytes_mem_lt (st : Hash8) : ∀ b ∈ digestBytes st, b < 256 := by
  intro b hb
  have h256 : ∀ x : Nat, x % 256 < 256 := fun x => Nat.mod_lt _ (by decide)
  simp only [digestBytes, List.mem_cons, List.not_mem_nil, or_false] at hb
  rcases hb with rfl | rfl | rfl | rfl | rfl | rfl | rfl | rfl | rfl | rfl | rfl |
    rfl | rfl | rfl | rfl | rfl | rfl | rfl | rfl | rfl | rfl | rfl | rfl | rfl |
    rfl | rfl | rfl | rfl | rfl | rfl | rfl | rfl <;> exact h256 _

theorem sha256_mem_lt (msg : List Nat) : ∀ b ∈ sha256 msg, b < 256 :=
  digestBytes_mem_lt _

theorem flatten_hex_length (bs : List Nat) :
    ((bs.map byteToHex).flatten).length = 2 * bs.length := by
  induction bs with
  | nil => rfl
  | cons b t ih =>
    simp only [List.map_cons, List.flatten_cons, List.length_append, ih,
      byteToHex, List.length_cons, List.length_nil]
    omega

theorem hexDigit_mem : ∀ n < 16, hexDigit n ∈ "0123456789abcdef".toList := by
  decide

theorem hexString_chars (bs : List Nat) (hbs : ∀ b ∈ bs, b < 256) :
    ∀ c ∈ (bs.map byteToHex).flatten, c ∈ "0123456789abcdef".toList := by
  intro c hc
  obtain ⟨l, hl, hcl⟩ := List.mem_flatten.mp hc
  obtain ⟨b, hb, rfl⟩ := List.mem_map.mp hl
  have hblt := hbs b hb
  simp only [byteToHex, List.mem_cons, List.not_mem_nil, or_false] at hcl
  rcases hcl with rfl | rfl
  · exact hexDigit_mem _ (by omega)
  · exact hexDigit_mem _ (Nat.mod_lt _ (by decide))

/-- Claim C7: for every identity public key serialization, the RDX
fingerprint is `RDX:` followed by the 64 lowercase hexadecimal characters
of `SHA256(bytes || "radix-identity-fingerprint")` — the formula of the
spec — and is therefore always exactly 68 characters long. -/
theorem fingerprint_is_rdx_hex_68 (identityKeySer : List Nat) :
    generate_identity_fingerprint_from_key identityKeySer
      = rdx_fingerprint_spec identityKeySer ∧
    (generate_identity_fingerprint_from_key identityKeySer).length = 68 ∧
    (generate_identity_fingerprint_from_key identityKeySer).toList.take 4
      = "RDX:".toList ∧
    ∀ c ∈ (generate_identity_fingerprint_from_key identityKeySer).toList.drop 4,
      c ∈ "0123456789abcdef".toList := by
  have hdata : (generate_identity_fingerprint_from_key identityKeySer).toList
      = "RDX:".toList ++
        ((sha256 (identityKeySer ++ fingerprintSuffix)).map byteToHex).flatten := rfl
  have hlen4 : ("RDX:".toList).length = 4 := rfl
  refine ⟨rfl, ?_, ?_, ?_⟩
  · show (generate_identity_fingerprint_from_key identityKeySer).toList.length = 68
    rw [hdata, List.length_append, hlen4, flatten_hex_length, sha256_length]
  · rw [hdata, List.take_left' hlen4]
  · rw [hdata, List.drop_left' hlen4]
    exact hexString_chars _ (sha256_mem_lt _)

/-- Witness for C7 at a concrete serialized key. -/
theorem fingerprint_is_rdx_hex_68_witness :
    (generate_identity_fingerprint_from_key [5, 1, 2]).length = 68 :=
  (fingerprint_is_rdx_hex_68 [5, 1, 2]).2.1

/-- Claim C8: the secondary (Nostr) public key computed by
`derive_from_signal_identity` from the local key pair equals the one
computed by `derive_public_key_from_peer_identity` from the identity's
public-key serialization alone; both are deterministic functions, so the
two parties agree. -/
theorem secondary_public_key_agreement (kp : IdentityKeyPairM) :
    (derive_from_signal_identity kp).publicKey
      = derive_public_key_from_peer_identity kp.identityKeySer := rfl

theorem dh_comm (x y : Nat) : dh x (pubOf y) = dh y (pubOf x) := by
  unfold dh pubOf
  rw [← Nat.pow_mod, ← Nat.pow_mod, ← pow_mul, ← pow_mul, Nat.mul_comm]

theorem decBytes_encBytes (k : Nat) :
    ∀ (i : Nat) (m : List Nat), decBytes k i (encBytes k i m) = m := by
  intro i m
  induction m generalizing i with
  | nil => rfl
  | cons b t ih =>
    simp only [encBytes, decBytes, ih]
    rw [Nat.xor_assoc, Nat.xor_self, Nat.xor_zero]

theorem x3dh_secrets_agree (a b : PartySecrets) :
    x3dhReceiverSecrets b (pubOf a.identityPriv) (pubOf a.ephemeralPriv) (some 1)
        (kemEncapCt a.kemEphemeralPriv)
      = x3dhSenderSecrets a (pubOf b.identityPriv) (pubOf b.signedPreKeyPriv)
          (some (pubOf b.oneTimePreKeyPriv)) (pubOf b.kyberPriv) := by
  unfold x3dhReceiverSecrets x3dhSenderSecrets kemDecapSS kemEncapSS kemEncapCt
  rw [dh_comm b.signedPreKeyPriv a.identityPriv,
    dh_comm b.identityPriv a.ephemeralPriv,
    dh_comm b.signedPreKeyPriv a.ephemeralPriv,
    dh_comm b.oneTimePreKeyPriv a.ephemeralPriv,
    dh_comm b.kyberPriv a.kemEphemeralPriv]

/-- Claim C1 (spec-modelled session engine): for every plaintext byte
sequence, including the empty one, once the sender has established a
session from the receiver's bundle, the receiver's decrypt of the bytes
the sender's encrypt produced returns exactly the plaintext (and consumes
the advertised one-time pre-key, id 1). -/
theorem encrypt_decrypt_roundtrip_identity (a b : PartySecrets) (m : List Nat) :
    (establish_and_encrypt_first a (bundleOf b) m).bind (decrypt_prekey_message b)
      = some (m, some 1) := by
  have hcond : (verifySig (pubOf b.identityPriv)
      (signWith b.identityPriv (pubOf b.signedPreKeyPriv)) (pubOf b.signedPreKeyPriv)
      && verifySig (pubOf b.identityPriv)
        (signWith b.identityPriv (pubOf b.kyberPriv)) (pubOf b.kyberPriv)) = true := by
    simp [verifySig, signWith]
  unfold establish_and_encrypt_first bundleOf
  simp only [List.getD_cons_zero, Option.map_some']
  rw [if_pos hcond]
  simp only [Option.some_bind, decrypt_prekey_message]
  rw [x3dh_secrets_agree a b, decBytes_encBytes]

/-- Claim C2 (spec-modelled): every successful
`decrypt_message_with_metadata` returns the plaintext together with the
`should_republish_bundle` flag, and the flag is `true` exactly when the
decryption consumed a one-time pre-key whose id matches the `pre_key_id`
recorded in the last published bundle metadata. -/
theorem decrypt_republish_flag_iff (b : PartySecrets)
    (meta : Option BundleMetadataM) (w : WireMessage) (res : DecryptResultM)
    (hres : decrypt_message_with_metadata b meta w = some res) :
    res.shouldRepublishBundle = true ↔
      ∃ pk mrow, decrypt_prekey_message b w = some (res.plaintext, some pk) ∧
        meta = some mrow ∧ mrow.preKeyId = pk := by
  unfold decrypt_message_with_metadata at hres
  cases hdec : decrypt_prekey_message b w with
  | none => rw [hdec] at hres; cases hres
  | some pr =>
    rw [hdec] at hres
    simp only [Option.map_some', Option.some.injEq] at hres
    subst hres
    cases hpk : pr.2 with
    | none =>
      simp only [hpk]
      constructor
      · intro hflag
        exfalso
        cases meta <;> simp [hpk] at hflag
      · rintro ⟨pk, mrow, hd, hm, hpkeq⟩
        have h2 : pr.2 = some pk := congrArg Prod.snd (Option.some.inj hd)
        rw [hpk] at h2
        cases h2
    | some pk0 =>
      cases hmeta : meta with
      | none =>
        simp only [hpk, hmeta]
        constructor
        · intro hflag; cases hflag
        · rintro ⟨pk, mrow, _, hm, _⟩
          cases hm
      | some m0 =>
        simp only [hpk, hmeta, beq_iff_eq]
        constructor
        · intro hflag
          refine ⟨pk0, m0, ?_, rfl, hflag.symm⟩
          rw [← hpk]
        · rintro ⟨pk, mrow, hd, hm, hpkeq⟩
          have h2 : pr.2 = some pk := congrArg Prod.snd (Option.some.inj hd)
          rw [hpk] at h2
          cases h2
          cases hm
          exact hpkeq.symm

/-- Witness for C2 at the concrete demo exchange: the consumed pre-key id
1 matches the recorded bundle metadata, so the flag is set. -/
theorem decrypt_republish_flag_witness :
    (⟨[72, 105], true⟩ : DecryptResultM).shouldRepublishBundle = true ↔
      ∃ pk mrow, decrypt_prekey_message bobDemo wireDemo
          = some ((⟨[72, 105], true⟩ : DecryptResultM).plaintext, some pk) ∧
        (some ⟨1, 1, 1⟩ : Option BundleMetadataM) = some mrow ∧
        mrow.preKeyId = pk :=
  decrypt_republish_flag_iff bobDemo (some ⟨1, 1, 1⟩) wireDemo ⟨[72, 105], true⟩
    (by decide)

set_option maxRecDepth 100000 in
/-- Counterexample to claim C9: `add_contact_from_bundle` performs no
alias-uniqueness check.  Two bundles carrying valid (33-byte, correctly
tagged) identity keys with different fingerprints are both stored under
the alias `bob`; both calls succeed and the table ends up with two
contacts carrying the same alias instead of an error. -/
theorem add_contact_accepts_alias_collision :
    (add_contact_from_bundle bundleDemoA (some "bob") 100 []).isSome ∧
    (add_contact_from_bundle bundleDemoB (some "bob") 200
      ((add_contact_from_bundle bundleDemoA (some "bob") 100 []).getD ([], "")).1).isSome ∧
    ((add_contact_from_bundle bundleDemoA (some "bob") 100 []).getD ([], "")).2
      ≠ ((add_contact_from_bundle bundleDemoB (some "bob") 200 []).getD ([], "")).2 ∧
    (((add_contact_from_bundle bundleDemoB (some "bob") 200
        ((add_contact_from_bundle bundleDemoA (some "bob") 100 []).getD ([], "")).1).getD
          ([], "")).1.countP (fun r => r.userAlias = some "bob")) = 2 := by
  refine ⟨by decide, by decide, by decide, by decide⟩

/-- Amended claim C9: for bundles whose identity key decodes,
`add_contact_from_bundle` never fails on an alias collision — it upserts
the row and stores the colliding alias (only `assign_contact_alias`
enforces alias uniqueness) — and on reinsert of the same fingerprint the
row's `first_seen` value is preserved while `last_updated` advances. -/
theorem add_contact_upsert_preserves_first_seen
    (b1 b2 : SerializablePreKeyBundleM) (al : Option String) (n1 n2 n3 : Nat)
    (hv1 : identity_key_decode b1.identityKey = some b1.identityKey)
    (hv2 : identity_key_decode b2.identityKey = some b2.identityKey)
    (hrdx : generate_identity_fingerprint_from_key b1.identityKey
      ≠ generate_identity_fingerprint_from_key b2.identityKey)
    (hnostr : hexString (derive_public_key_from_peer_identity b1.identityKey)
      ≠ hexString (derive_public_key_from_peer_identity b2.identityKey)) :
    ∃ t1 t2 t3 : List ContactRow,
      add_contact_from_bundle b1 al n1 []
        = some (t1, generate_identity_fingerprint_from_key b1.identityKey) ∧
      add_contact_from_bundle b2 al n2 t1
        = some (t2, generate_identity_fingerprint_from_key b2.identityKey) ∧
      t2.countP (fun r => r.userAlias = al) = 2 ∧
      add_contact_from_bundle b1 al n3 t2
        = some (t3, generate_identity_fingerprint_from_key b1.identityKey) ∧
      ∃ r ∈ t3,
        r.rdxFingerprint = generate_identity_fingerprint_from_key b1.identityKey ∧
        r.firstSeen = n1 ∧ r.lastUpdated = n3 := by
  have step : ∀ (b : SerializablePreKeyBundleM) (a : Option String) (now : Nat)
      (t : List ContactRow),
      identity_key_decode b.identityKey = some b.identityKey →
      add_contact_from_bundle b a now t
        = some (upsert_contact ⟨generate_identity_fingerprint_from_key b.identityKey,
            hexString (derive_public_key_from_peer_identity b.identityKey), a,
            b.identityKey,
            (match t.find? (fun r => r.rdxFingerprint
              = generate_identity_fingerprint_from_key b.identityKey) with
             | some r => r.firstSeen
             | none => now), now⟩ t,
          generate_identity_fingerprint_from_key b.identityKey) := by
    intro b a now t hv
    unfold add_contact_from_bundle
    rw [hv]
  have hfindnone : List.find? (fun r => r.rdxFingerprint
      = generate_identity_fingerprint_from_key b2.identityKey)
      [(⟨generate_identity_fingerprint_from_key b1.identityKey,
         hexString (derive_public_key_from_peer_identity b1.identityKey),
         al, b1.identityKey, n1, n1⟩ : ContactRow)] = none := by
    simp only [List.find?_cons, List.find?_nil]
    rw [show decide ((⟨generate_identity_fingerprint_from_key b1.identityKey,
      hexString (derive_public_key_from_peer_identity b1.identityKey),
      al, b1.identityKey, n1, n1⟩ : ContactRow).rdxFingerprint
        = generate_identity_fingerprint_from_key b2.identityKey) = false
      from decide_eq_false hrdx]
  refine ⟨[⟨generate_identity_fingerprint_from_key b1.identityKey,
      hexString (derive_public_key_from_peer_identity b1.identityKey),
      al, b1.identityKey, n1, n1⟩],
    [⟨generate_identity_fingerprint_from_key b1.identityKey,
      hexString (derive_public_key_from_peer_identity b1.identityKey),
      al, b1.identityKey, n1, n1⟩,
     ⟨generate_identity_fingerprint_from_key b2.identityKey,
      hexString (derive_public_key_from_peer_identity b2.identityKey),
      al, b2.identityKey, n2, n2⟩],
    [⟨generate_identity_fingerprint_from_key b2.identityKey,
      hexString (derive_public_key_from_peer_identity b2.identityKey),
      al, b2.identityKey, n2, n2⟩,
     ⟨generate_identity_fingerprint_from_key b1.identityKey,
      hexString (derive_public_key_from_peer_identity b1.identityKey),
      al, b1.identityKey, n1, n3⟩], ?_, ?_, ?_, ?_, ?_⟩
  · rw [step b1 al n1 [] hv1]
    rfl
  · rw [step b2 al n2 _ hv2, hfindnone]
    unfold upsert_contact
    rw [List.filter_cons_of_pos (by
      apply decide_eq_true
      exact ⟨hrdx, hnostr⟩)]
    rfl
  · simp [List.countP_cons]
  · have hfindsome : List.find? (fun r => r.rdxFingerprint
        = generate_identity_fingerprint_from_key b1.identityKey)
        [(⟨generate_identity_fingerprint_from_key b1.identityKey,
           hexString (derive_public_key_from_peer_identity b1.identityKey),
           al, b1.identityKey, n1, n1⟩ : ContactRow),
         ⟨generate_identity_fingerprint_from_key b2.identityKey,
          hexString (derive_public_key_from_peer_identity b2.identityKey),
          al, b2.identityKey, n2, n2⟩]
        = some ⟨generate_identity_fingerprint_from_key b1.identityKey,
            hexString (derive_public_key_from_peer_identity b1.identityKey),
            al, b1.identityKey, n1, n1⟩ := by
      simp [List.find?_cons]
    rw [step b1 al n3 _ hv1, hfindsome]
    unfold upsert_contact
    rw [List.filter_cons_of_neg (by
      simp only [decide_eq_true_eq]
      intro hcontra
      exact hcontra.1 rfl)]
    rw [List.filter_cons_of_pos (by
      apply decide_eq_true
      exact ⟨fun hcontra => hrdx hcontra.symm, fun hcontra => hnostr hcontra.symm⟩)]
    rfl
  · refine ⟨⟨generate_identity_fingerprint_from_key b1.identityKey,
      hexString (derive_public_key_from_peer_identity b1.identityKey),
      al, b1.identityKey, n1, n3⟩, ?_, rfl, rfl, rfl⟩
    exact List.mem_cons_of_mem _ (List.mem_singleton.mpr rfl)

set_option maxRecDepth 100000 in
/-- Witness for the amended C9 at the two concrete valid demo bundles. -/
theorem add_contact_upsert_witness :
    ∃ t1 t2 t3 : List ContactRow,
      add_contact_from_bundle bundleDemoA (some "bob") 100 []
        = some (t1, generate_identity_fingerprint_from_key bundleDemoA.identityKey) ∧
      add_contact_from_bundle bundleDemoB (some "bob") 200 t1
        = some (t2, generate_identity_fingerprint_from_key bundleDemoB.identityKey) ∧
      t2.countP (fun r => r.userAlias = some "bob") = 2 ∧
      add_contact_from_bundle bundleDemoA (some "bob") 300 t2
        = some (t3, generate_identity_fingerprint_from_key bundleDemoA.identityKey) ∧
      ∃ r ∈ t3,
        r.rdxFingerprint
          = generate_identity_fingerprint_from_key bundleDemoA.identityKey ∧
        r.firstSeen = 100 ∧ r.lastUpdated = 300 :=
  add_contact_upsert_preserves_first_seen bundleDemoA bundleDemoB (some "bob")
    100 200 300 (by decide) (by decide) (by decide) (by decide)

end RadixRelay
